import Mathlib

/-!
Verification of the `no_dupe_keys` lint rule (src/rules/no_dupe_keys.rs).

The rule walks a parsed module; on every object literal it derives a canonical
key for each property entry via `get_key`, records keys seen in a `HashSet` and
keys seen twice in a `BTreeSet<String>`, and emits one diagnostic per duplicate
key, iterating the `BTreeSet` in ascending (lexical) order.

Embedding conventions:
* The swc AST fragment the rule consumes is embedded as a mutual inductive
  family.  swc's `Prop` is named `JsProp` here because `Prop` is reserved in
  Lean.  Numeric-literal values (`f64` in swc) are modelled as `Int`: the rule
  only reads the already-parsed numeric value and renders it with `to_string`,
  and every behaviour under study involves integral values, for which Rust's
  `f64` rendering agrees with integer decimal rendering.
* `Context` is the diagnostic sink; `add_diagnostic` appends, mirroring
  `self.context.add_diagnostic(span, code, message)`.
* The `HashSet<String>` of seen keys is modelled as a list queried only through
  membership; the `BTreeSet<String>` of duplicates is modelled as a strictly
  sorted list with ordered insertion (`btreeInsert`), so that iterating it
  yields ascending order exactly as iterating a `BTreeSet` does.
* The traversal plumbing (the visitor defaults of `swc_ecma_visit` and the
  linter driver) is not part of this source tree.  `visitExpr` and
  `visitExprList` are modelled from that framework's contract: a default
  visitor method recurses into the node's children, so every expression
  position reachable from the module is walked.  The rule, however,
  overrides `visit_object_lit` with a body that never calls back into the
  default recursion, so on an object literal the handler runs and the
  traversal does not descend below the literal: `visitObjectLit` mirrors
  that override, and object literals nested below another object literal
  are never visited.
-/

/-- Source span of a node (swc `Span`; the hygiene context is irrelevant). -/
structure Span where
  lo : Nat
  hi : Nat
deriving DecidableEq, Repr

/-- One reported finding: `context.add_diagnostic(span, code, message)`. -/
structure Diagnostic where
  span : Span
  code : String
  message : String
deriving DecidableEq, Repr

/-- The diagnostic sink held by the visitor, as the sequence of diagnostics
recorded so far. -/
abbrev Context : Type := List Diagnostic

/-- `Context::add_diagnostic`: record one finding at the end of the sink. -/
def add_diagnostic (ctx : Context) (span : Span) (code : String)
    (message : String) : Context :=
  ctx ++ [⟨span, code, message⟩]

mutual

/-- Expressions, restricted to the shapes the rule can meet: object literals,
atomic literals/identifiers, and a call node standing for the remaining
recursive expression forms the traversal walks through. -/
inductive Expr : Type where
  | object : ObjectLit → Expr
  | ident : String → Expr
  | strLit : String → Expr
  | numLit : Int → Expr
  | call : Expr → List Expr → Expr

/-- swc `ObjectLit`: a span and the ordered property list. -/
inductive ObjectLit : Type where
  | mk : Span → List PropOrSpread → ObjectLit

/-- swc `PropOrSpread`. -/
inductive PropOrSpread : Type where
  | prop : JsProp → PropOrSpread
  | spread : Expr → PropOrSpread

/-- swc `Prop` (renamed: `Prop` is reserved in Lean).  Getter/setter/method
bodies are modelled as an optional expression reachable by the traversal. -/
inductive JsProp : Type where
  | keyValue : PropName → Expr → JsProp
  | getter : PropName → Option Expr → JsProp
  | setter : PropName → String → Option Expr → JsProp
  | method : PropName → Option Expr → JsProp
  | shorthand : String → JsProp
  | assign : String → Expr → JsProp

/-- swc `PropName`. -/
inductive PropName : Type where
  | ident : String → PropName
  | str : String → PropName
  | num : Int → PropName
  | computed : Expr → PropName

end

/-- A module (swc `Module`; renamed because `Module` is taken by Mathlib): the
statements are modelled by the expressions they contain, which is all the
traversal inspects. -/
structure JsModule where
  body : List Expr

/-- `impl Key for PropName`: identifier and string keys verbatim, numeric keys
by their decimal rendering, computed keys excluded. -/
def PropName.get_key : PropName → Option String
  | .ident identifier => some identifier
  | .str s => some s
  | .num n => some (toString n)
  | .computed _ => none

/-- `impl Key for Prop`: key-carrying variants delegate to their `PropName`;
shorthand and assignment-pattern entries have no key. -/
def JsProp.get_key : JsProp → Option String
  | .keyValue key _ => key.get_key
  | .getter key _ => key.get_key
  | .setter key _ _ => key.get_key
  | .method key _ => key.get_key
  | .shorthand _ => none
  | .assign _ _ => none

/-- `impl Key for PropOrSpread`: spread elements have no key. -/
def PropOrSpread.get_key : PropOrSpread → Option String
  | .prop p => p.get_key
  | .spread _ => none

/-- Ordered insertion into a strictly sorted list: the model of
`BTreeSet<String>::insert`. -/
def btreeInsert (k : String) : List String → List String
  | [] => [k]
  | x :: xs =>
    if k < x then k :: x :: xs
    else if x < k then x :: btreeInsert k xs
    else x :: xs

/-- The scanning loop of `visit_object_lit` on the canonical-key sequence:
walk the keys in order; a key already seen goes into `duplicates`, otherwise
into `keys` (the seen set). -/
def scanKeys : List String → List String → List String → List String
  | [], _keys, duplicates => duplicates
  | k :: ks, keys, duplicates =>
    if keys.contains k then scanKeys ks keys (btreeInsert k duplicates)
    else scanKeys ks (k :: keys) duplicates

/-- The `for prop in &obj_lit.props` loop of `visit_object_lit`: entries whose
`get_key` is `None` are skipped; the others feed the seen/duplicates sets. -/
def scanProps : List PropOrSpread → List String → List String → List String
  | [], _keys, duplicates => duplicates
  | p :: ps, keys, duplicates =>
    match p.get_key with
    | some key =>
      if keys.contains key then scanProps ps keys (btreeInsert key duplicates)
      else scanProps ps (key :: keys) duplicates
    | none => scanProps ps keys duplicates

/-- The duplicate set of one object literal's property list, in ascending
order (both sets start empty for each literal). -/
def duplicateKeys (props : List PropOrSpread) : List String :=
  scanProps props [] []

/-- The message `format!("Duplicate key '{}'", key)`. -/
def dupMessage (key : String) : String :=
  "Duplicate key \x27" ++ key ++ "\x27"

/-- The diagnostic emitted for one duplicate key of the literal at `span`. -/
def mkDiagnostic (span : Span) (key : String) : Diagnostic :=
  ⟨span, "noDupeKeys", dupMessage key⟩

/-- `NoDupeKeysVisitor::visit_object_lit`: scan the property list, then emit
one diagnostic per duplicate key, iterating the duplicate set in ascending
order, each at the object literal's own span. -/
def visit_object_lit (ctx : Context) : ObjectLit → Context
  | .mk span props =>
    (duplicateKeys props).foldl
      (fun c key => add_diagnostic c span "noDupeKeys" (dupMessage key)) ctx

/-- The diagnostics one literal contributes, as a pure list. -/
def objectLitDiagnostics (span : Span) (props : List PropOrSpread) :
    List Diagnostic :=
  (duplicateKeys props).map (mkDiagnostic span)

/-- On an object literal the traversal invokes the overridden handler in
place of the default method; the override (no_dupe_keys.rs, visit_object_lit)
never calls back into the default recursion, so nothing below the literal is
visited. -/
def visitObjectLit (ctx : Context) (lit : ObjectLit) : Context :=
  visit_object_lit ctx lit

mutual

/-- Modelled from the spec's visitor contract: a default visitor method
visits the node and recurses into its children; the only overridden node
kind is the object literal, whose handler replaces the descent. -/
def visitExpr (ctx : Context) : Expr → Context
  | .object lit => visitObjectLit ctx lit
  | .ident _ => ctx
  | .strLit _ => ctx
  | .numLit _ => ctx
  | .call f args => visitExprList (visitExpr ctx f) args

/-- Modelled from the spec's visitor contract: children are visited in
order. -/
def visitExprList (ctx : Context) : List Expr → Context
  | [] => ctx
  | e :: es => visitExprList (visitExpr ctx e) es

end

/-- `NoDupeKeys::lint_module`: build a fresh visitor holding the context and
drive it over the module. -/
def lint_module (ctx : Context) (m : JsModule) : Context :=
  visitExprList ctx m.body

/-- The canonical-key sequence of a property list, `None`s dropped. -/
def getKeys (props : List PropOrSpread) : List String :=
  props.filterMap PropOrSpread.get_key

/-- The seen set after the scanning loop has processed a key sequence. -/
def seenAfter : List String → List String → List String
  | [], seen => seen
  | k :: ks, seen =>
    if seen.contains k then seenAfter ks seen else seenAfter ks (k :: seen)

theorem mem_btreeInsert (k a : String) (l : List String) :
    a ∈ btreeInsert k l ↔ a = k ∨ a ∈ l := by
  induction l with
  | nil => simp [btreeInsert]
  | cons x xs ih =>
    rw [btreeInsert]
    by_cases h1 : k < x
    · rw [if_pos h1]
      simp only [List.mem_cons]
    · rw [if_neg h1]
      by_cases h2 : x < k
      · rw [if_pos h2]
        simp only [List.mem_cons, ih]
        tauto
      · rw [if_neg h2]
        have hxk : x = k := le_antisymm (not_lt.mp h1) (not_lt.mp h2)
        subst hxk
        simp only [List.mem_cons]
        tauto

theorem sorted_btreeInsert (k : String) : ∀ {l : List String},
    l.Sorted (· < ·) → (btreeInsert k l).Sorted (· < ·) := by
  intro l
  induction l with
  | nil => intro _; simp [btreeInsert]
  | cons x xs ih =>
    intro h
    rw [List.sorted_cons] at h
    rw [btreeInsert]
    by_cases h1 : k < x
    · rw [if_pos h1]
      refine List.sorted_cons.mpr ⟨?_, List.sorted_cons.mpr h⟩
      intro b hb
      rcases List.mem_cons.mp hb with rfl | hbx
      · exact h1
      · exact lt_trans h1 (h.1 b hbx)
    · rw [if_neg h1]
      by_cases h2 : x < k
      · rw [if_pos h2]
        refine List.sorted_cons.mpr ⟨?_, ih h.2⟩
        intro b hb
        rcases (mem_btreeInsert k b xs).mp hb with rfl | hbx
        · exact h2
        · exact h.1 b hbx
      · rw [if_neg h2]
        exact List.sorted_cons.mpr h

theorem btreeInsert_of_mem : ∀ {l : List String}, l.Sorted (· < ·) →
    ∀ {k : String}, k ∈ l → btreeInsert k l = l := by
  intro l
  induction l with
  | nil => intro _ k hk; cases hk
  | cons x xs ih =>
    intro hs k hk
    rw [List.sorted_cons] at hs
    rw [btreeInsert]
    rcases List.mem_cons.mp hk with rfl | hmem
    · rw [if_neg (lt_irrefl k), if_neg (lt_irrefl k)]
    · have hxk : x < k := hs.1 k hmem
      rw [if_neg (asymm hxk), if_pos hxk, ih hs.2 hmem]

theorem mem_scanKeys (ks : List String) :
    ∀ (seen dups : List String) (k : String),
      k ∈ scanKeys ks seen dups ↔
        k ∈ dups ∨ (k ∈ seen ∧ k ∈ ks) ∨ 2 ≤ ks.count k := by
  induction ks with
  | nil => intro seen dups k; simp [scanKeys]
  | cons x xs ih =>
    intro seen dups k
    by_cases hx : x ∈ seen
    · have hc : seen.contains x = true := by simpa using hx
      rw [scanKeys, if_pos hc, ih]
      by_cases hk : k = x
      · subst hk
        simp [mem_btreeInsert, hx, List.count_cons]
      · simp only [mem_btreeInsert, List.mem_cons, List.count_cons, hk,
          beq_iff_eq, Ne.symm hk, if_false, Nat.add_zero, false_or, or_false]
    · have hc : seen.contains x = false := by simpa using hx
      rw [scanKeys, if_neg (by simpa using hx), ih]
      by_cases hk : k = x
      · subst hk
        have h1 : k ∈ xs ↔ 0 < xs.count k := List.count_pos_iff.symm
        by_cases hd : k ∈ dups
        · simp [hd]
        · simp only [hd, hx, List.mem_cons, List.count_cons, beq_self_eq_true,
            if_true, true_or, true_and, false_and, false_or, or_false, h1]
          omega
      · simp only [List.mem_cons, List.count_cons, hk, beq_iff_eq,
          Ne.symm hk, if_false, Nat.add_zero, false_or, or_false]

theorem sorted_scanKeys (ks : List String) :
    ∀ (seen dups : List String), dups.Sorted (· < ·) →
      (scanKeys ks seen dups).Sorted (· < ·) := by
  induction ks with
  | nil => intro _ _ h; simpa [scanKeys] using h
  | cons x xs ih =>
    intro seen dups h
    rw [scanKeys]
    by_cases hc : seen.contains x = true
    · rw [if_pos hc]
      exact ih _ _ (sorted_btreeInsert x h)
    · rw [if_neg hc]
      exact ih _ _ h

theorem scanKeys_append (xs : List String) :
    ∀ (ys seen dups : List String),
      scanKeys (xs ++ ys) seen dups
        = scanKeys ys (seenAfter xs seen) (scanKeys xs seen dups) := by
  induction xs with
  | nil => intro ys seen dups; rfl
  | cons x xs ih =>
    intro ys seen dups
    rw [List.cons_append, scanKeys, scanKeys, seenAfter]
    by_cases hc : seen.contains x = true
    · rw [if_pos hc, if_pos hc, if_pos hc, ih]
    · rw [if_neg hc, if_neg hc, if_neg hc, ih]

theorem mem_seenAfter (xs : List String) :
    ∀ (seen : List String) (k : String), k ∈ seen ∨ k ∈ xs →
      k ∈ seenAfter xs seen := by
  induction xs with
  | nil => intro seen k h; simpa using h
  | cons x xs ih =>
    intro seen k h
    rw [seenAfter]
    by_cases hc : seen.contains x = true
    · rw [if_pos hc]
      refine ih seen k ?_
      rcases h with h | h
      · exact Or.inl h
      · rcases List.mem_cons.mp h with rfl | h
        · exact Or.inl (by simpa using hc)
        · exact Or.inr h
    · rw [if_neg hc]
      refine ih (x :: seen) k ?_
      rcases h with h | h
      · exact Or.inl (List.mem_cons_of_mem x h)
      · rcases List.mem_cons.mp h with rfl | h
        · exact Or.inl (List.mem_cons_self k seen)
        · exact Or.inr h

theorem scanProps_eq_scanKeys : ∀ (props : List PropOrSpread)
    (keys dups : List String),
    scanProps props keys dups = scanKeys (getKeys props) keys dups := by
  intro props
  induction props with
  | nil => intro _ _; rfl
  | cons p ps ih =>
    intro keys dups
    rw [scanProps]
    cases hp : p.get_key with
    | none => simp [getKeys, List.filterMap_cons, hp, ih]
    | some key =>
      by_cases hc : keys.contains key = true <;>
        simp [getKeys, List.filterMap_cons, hp, scanKeys, hc, ih]

theorem mem_duplicateKeys (props : List PropOrSpread) (k : String) :
    k ∈ duplicateKeys props ↔ 2 ≤ (getKeys props).count k := by
  rw [duplicateKeys, scanProps_eq_scanKeys, mem_scanKeys]
  simp

theorem sorted_duplicateKeys (props : List PropOrSpread) :
    (duplicateKeys props).Sorted (· < ·) := by
  rw [duplicateKeys, scanProps_eq_scanKeys]
  exact sorted_scanKeys _ _ _ (by simp)

theorem nodup_duplicateKeys (props : List PropOrSpread) :
    (duplicateKeys props).Nodup :=
  (sorted_duplicateKeys props).nodup

theorem duplicateKeys_eq_nil_of_nodup {props : List PropOrSpread}
    (h : (getKeys props).Nodup) : duplicateKeys props = [] := by
  rw [List.eq_nil_iff_forall_not_mem]
  intro k hk
  rw [mem_duplicateKeys] at hk
  have := List.nodup_iff_count_le_one.mp h k
  omega

theorem foldl_add_diagnostic (span : Span) : ∀ (dups : List String)
    (ctx : Context),
    dups.foldl (fun c key => add_diagnostic c span "noDupeKeys" (dupMessage key))
      ctx = ctx ++ dups.map (mkDiagnostic span) := by
  intro dups
  induction dups with
  | nil => intro ctx; simp
  | cons k ks ih =>
    intro ctx
    rw [List.foldl_cons, ih]
    simp [add_diagnostic, mkDiagnostic]

theorem visit_object_lit_eq (ctx : Context) (span : Span)
    (props : List PropOrSpread) :
    visit_object_lit ctx (.mk span props)
      = ctx ++ objectLitDiagnostics span props := by
  rw [visit_object_lit, objectLitDiagnostics, foldl_add_diagnostic]

theorem dupMessage_inj {a b : String} (h : dupMessage a = dupMessage b) :
    a = b := by
  have hd := congrArg String.data h
  rw [dupMessage, dupMessage] at hd
  simp only [String.data_append] at hd
  exact String.ext (List.append_cancel_left (List.append_cancel_right hd))

theorem mkDiagnostic_inj (span : Span) : Function.Injective (mkDiagnostic span) :=
  fun _ _ h => dupMessage_inj (congrArg Diagnostic.message h)

theorem visitObjectLit_append (ctx : Context) (lit : ObjectLit) :
    visitObjectLit ctx lit = ctx ++ visitObjectLit [] lit := by
  cases lit with
  | mk span props =>
    rw [visitObjectLit, visitObjectLit, visit_object_lit_eq,
      visit_object_lit_eq]
    simp

mutual

theorem visitExpr_append (ctx : Context) (e : Expr) :
    visitExpr ctx e = ctx ++ visitExpr [] e := by
  cases e with
  | object lit =>
    rw [visitExpr, visitExpr]
    exact visitObjectLit_append ctx lit
  | ident s => simp [visitExpr]
  | strLit s => simp [visitExpr]
  | numLit n => simp [visitExpr]
  | call f args =>
    rw [visitExpr, visitExpr, visitExpr_append ctx f,
      visitExprList_append (ctx ++ visitExpr [] f) args,
      visitExprList_append (visitExpr [] f) args, List.append_assoc]

theorem visitExprList_append (ctx : Context) (es : List Expr) :
    visitExprList ctx es = ctx ++ visitExprList [] es := by
  cases es with
  | nil => simp [visitExprList]
  | cons e es =>
    rw [visitExprList, visitExprList, visitExpr_append ctx e,
      visitExprList_append (ctx ++ visitExpr [] e) es,
      visitExprList_append (visitExpr [] e) es, List.append_assoc]

end

theorem lint_module_append (ctx : Context) (m : JsModule) :
    lint_module ctx m = ctx ++ lint_module [] m := by
  rw [lint_module, lint_module]
  exact visitExprList_append ctx m.body

/-- A plain identifier-keyed data property, the most common entry shape. -/
def kvProp (k : String) (v : Expr) : PropOrSpread :=
  .prop (.keyValue (.ident k) v)

/-- C1: refuted by the code.  The claim says an object literal nested inside
a property value of an outer literal is itself checked, its duplicate keys
producing their own diagnostics.  But the overridden `visit_object_lit`
never calls back into the default recursion, so the program never traverses
below an object literal: on the module `var foo = [ a: "x", b: [ dup: "y",
dup: "z" ] ]` the run reports nothing, even though the nested literal's
property list, scanned directly, does contain the duplicate key `dup`. -/
theorem c1_nested_not_checked :
    lint_module [] ⟨[Expr.object (ObjectLit.mk ⟨0, 10⟩
        [kvProp "a" (Expr.strLit "x"),
         kvProp "b" (Expr.object (ObjectLit.mk ⟨2, 8⟩
           [kvProp "dup" (Expr.strLit "y"),
            kvProp "dup" (Expr.strLit "z")]))])]⟩
      = []
    ∧ duplicateKeys [kvProp "dup" (Expr.strLit "y"),
        kvProp "dup" (Expr.strLit "z")] = ["dup"] :=
  ⟨by decide, by decide⟩

/-- C2: a diagnostic for canonical key `k` is emitted for one object literal
exactly when at least two of its direct entries canonicalize to `k` (entries
with no key are dropped), at most one diagnostic per key is emitted, and
pairwise-distinct canonical keys yield zero diagnostics. -/
theorem c2_dup_diagnostic_iff (span : Span) (props : List PropOrSpread)
    (k : String) :
    (mkDiagnostic span k ∈ objectLitDiagnostics span props ↔
        2 ≤ (getKeys props).count k)
    ∧ (objectLitDiagnostics span props).Nodup
    ∧ ((getKeys props).Nodup → objectLitDiagnostics span props = []) := by
  refine ⟨?_, ?_, ?_⟩
  · rw [objectLitDiagnostics]
    constructor
    · intro hm
      obtain ⟨a, ha, hak⟩ := List.mem_map.mp hm
      have haa : a = k := mkDiagnostic_inj span hak
      subst haa
      exact (mem_duplicateKeys props a).mp ha
    · intro hc
      exact List.mem_map.mpr ⟨k, (mem_duplicateKeys props k).mpr hc, rfl⟩
  · exact (nodup_duplicateKeys props).map (mkDiagnostic_inj span)
  · intro h
    rw [objectLitDiagnostics, duplicateKeys_eq_nil_of_nodup h, List.map_nil]

/-- Witness for C2 at a concrete literal with one duplicated key. -/
theorem c2_witness :
    mkDiagnostic ⟨0, 10⟩ "bar" ∈ objectLitDiagnostics ⟨0, 10⟩
      [kvProp "bar" (Expr.strLit "baz"), kvProp "bar" (Expr.strLit "qux")] :=
  (c2_dup_diagnostic_iff ⟨0, 10⟩
    [kvProp "bar" (Expr.strLit "baz"), kvProp "bar" (Expr.strLit "qux")]
    "bar").1.mpr (by decide)

/-- C3: for any literal the diagnostics are the duplicate keys in ascending
lexical order; on the spec's four-property example the order is
`bar, quux`, and with the occurrence order reversed (`quux` first) the
output is still `bar, quux`, not first-occurrence order. -/
theorem c3_sorted_emission (span : Span) (props : List PropOrSpread) :
    objectLitDiagnostics span props
        = (duplicateKeys props).map (mkDiagnostic span)
    ∧ (duplicateKeys props).Sorted (· < ·)
    ∧ duplicateKeys [kvProp "bar" (Expr.strLit "baz"),
        kvProp "bar" (Expr.strLit "qux"), kvProp "quux" (Expr.strLit "boom"),
        kvProp "quux" (Expr.strLit "bang")] = ["bar", "quux"]
    ∧ duplicateKeys [kvProp "quux" (Expr.strLit "boom"),
        kvProp "quux" (Expr.strLit "bang"), kvProp "bar" (Expr.strLit "baz"),
        kvProp "bar" (Expr.strLit "qux")] = ["bar", "quux"] := by
  have h1 : ¬ ("quux" : String) < "bar" := by
    rw [String.lt_iff_toList_lt]; decide
  have h2 : ("bar" : String) < "quux" := by
    rw [String.lt_iff_toList_lt]; decide
  refine ⟨rfl, sorted_duplicateKeys props, ?_, ?_⟩
  · simp [duplicateKeys, scanProps, kvProp, PropOrSpread.get_key,
      JsProp.get_key, PropName.get_key, btreeInsert, h1, h2]
  · simp [duplicateKeys, scanProps, kvProp, PropOrSpread.get_key,
      JsProp.get_key, PropName.get_key, btreeInsert, h1, h2]

/-- C4: `get_key` is total and returns `none` exactly for spread, shorthand
and assignment-pattern entries and computed keys; the key-carrying variants
delegate to their key descriptor, with identifier and string keys verbatim
and numeric keys by decimal rendering. -/
theorem c4_get_key_total :
    (∀ e : Expr, (PropOrSpread.spread e).get_key = none)
    ∧ (∀ n : String, (PropOrSpread.prop (JsProp.shorthand n)).get_key = none)
    ∧ (∀ (n : String) (v : Expr),
        (PropOrSpread.prop (JsProp.assign n v)).get_key = none)
    ∧ (∀ (k : PropName) (v : Expr),
        (PropOrSpread.prop (JsProp.keyValue k v)).get_key = k.get_key)
    ∧ (∀ (k : PropName) (b : Option Expr),
        (PropOrSpread.prop (JsProp.getter k b)).get_key = k.get_key)
    ∧ (∀ (k : PropName) (s : String) (b : Option Expr),
        (PropOrSpread.prop (JsProp.setter k s b)).get_key = k.get_key)
    ∧ (∀ (k : PropName) (b : Option Expr),
        (PropOrSpread.prop (JsProp.method k b)).get_key = k.get_key)
    ∧ (∀ s : String, (PropName.ident s).get_key = some s)
    ∧ (∀ s : String, (PropName.str s).get_key = some s)
    ∧ (∀ n : Int, (PropName.num n).get_key = some (toString n))
    ∧ (∀ e : Expr, (PropName.computed e).get_key = none) :=
  ⟨fun _ => rfl, fun _ => rfl, fun _ _ => rfl, fun _ _ => rfl,
    fun _ _ => rfl, fun _ _ _ => rfl, fun _ _ => rfl, fun _ => rfl,
    fun _ => rfl, fun _ => rfl, fun _ => rfl⟩

/-- C5: a numeric key canonicalizes to the value's decimal rendering, so two
numeric keys with the same parsed value collide into one diagnostic for that
rendering (differently spelled literals such as `1` and `0x1` reach the rule
as the same parsed value). -/
theorem c5_numeric_canonical (span : Span) (v w : Int) (a b : String)
    (h : v = w) :
    (PropName.num v).get_key = some (toString v)
    ∧ objectLitDiagnostics span
        [PropOrSpread.prop (JsProp.keyValue (PropName.num v) (Expr.strLit a)),
         PropOrSpread.prop (JsProp.keyValue (PropName.num w) (Expr.strLit b))]
      = [mkDiagnostic span (toString v)] := by
  subst h
  refine ⟨rfl, ?_⟩
  simp [objectLitDiagnostics, duplicateKeys, scanProps, PropOrSpread.get_key,
    JsProp.get_key, PropName.get_key, btreeInsert]

/-- Witness for C5: the literal keys `1` and `0x1` denote the same value and
produce exactly one diagnostic, for canonical key `"1"`. -/
theorem c5_witness :
    objectLitDiagnostics ⟨0, 10⟩
        [PropOrSpread.prop (JsProp.keyValue (PropName.num 1)
          (Expr.strLit "baz")),
         PropOrSpread.prop (JsProp.keyValue (PropName.num 0x1)
          (Expr.strLit "qux"))]
      = [mkDiagnostic ⟨0, 10⟩ (toString (1 : Int))]
    ∧ toString (1 : Int) = "1" :=
  ⟨(c5_numeric_canonical ⟨0, 10⟩ 1 0x1 "baz" "qux" (by decide)).2, by decide⟩

/-- C6: every diagnostic one literal emits has rule code `noDupeKeys`, the
message `Duplicate key` quoting the duplicated canonical key, and the
literal's own span. -/
theorem c6_diagnostic_shape (span : Span) (props : List PropOrSpread)
    (d : Diagnostic) (h : d ∈ objectLitDiagnostics span props) :
    d.code = "noDupeKeys" ∧ d.span = span
    ∧ ∃ k ∈ duplicateKeys props, d.message = dupMessage k := by
  rw [objectLitDiagnostics] at h
  obtain ⟨k, hk, rfl⟩ := List.mem_map.mp h
  exact ⟨rfl, rfl, k, hk, rfl⟩

/-- Witness for C6 at a concrete duplicated literal. -/
theorem c6_witness :
    (mkDiagnostic ⟨0, 10⟩ "bar").code = "noDupeKeys"
    ∧ (mkDiagnostic ⟨0, 10⟩ "bar").span = ⟨0, 10⟩
    ∧ ∃ k ∈ duplicateKeys [kvProp "bar" (Expr.strLit "baz"),
        kvProp "bar" (Expr.strLit "qux")],
        (mkDiagnostic ⟨0, 10⟩ "bar").message = dupMessage k :=
  c6_diagnostic_shape ⟨0, 10⟩
    [kvProp "bar" (Expr.strLit "baz"), kvProp "bar" (Expr.strLit "qux")]
    (mkDiagnostic ⟨0, 10⟩ "bar") (by decide)

/-- C7: duplicate reporting is presence-only: appending one more entry with
an already-duplicated canonical key leaves the duplicate set unchanged, and
a key duplicated two or more times appears exactly once in it. -/
theorem c7_presence_only (props : List PropOrSpread) (p : PropOrSpread)
    (key : String) (hp : p.get_key = some key)
    (hdup : 2 ≤ (getKeys props).count key) :
    duplicateKeys (props ++ [p]) = duplicateKeys props
    ∧ (duplicateKeys props).count key = 1 := by
  have hmem : key ∈ duplicateKeys props := (mem_duplicateKeys props key).mpr hdup
  constructor
  · have hkeys : getKeys (props ++ [p]) = getKeys props ++ [key] := by
      rw [getKeys, List.filterMap_append]
      simp [getKeys, List.filterMap_cons, hp]
    rw [duplicateKeys, duplicateKeys, scanProps_eq_scanKeys,
      scanProps_eq_scanKeys, hkeys, scanKeys_append]
    have hseen : key ∈ seenAfter (getKeys props) [] := by
      apply mem_seenAfter
      right
      have hpos : 0 < (getKeys props).count key := by omega
      exact List.count_pos_iff.mp hpos
    have hcont : (seenAfter (getKeys props) []).contains key = true := by
      simpa using hseen
    simp only [scanKeys, hcont, if_true]
    have hD : key ∈ scanKeys (getKeys props) [] [] := by
      rw [← scanProps_eq_scanKeys, ← duplicateKeys]
      exact hmem
    have hsort : (scanKeys (getKeys props) [] []).Sorted (· < ·) :=
      sorted_scanKeys _ _ _ (by simp)
    exact btreeInsert_of_mem hsort hD
  · exact List.count_eq_one_of_mem (nodup_duplicateKeys props) hmem

/-- Witness for C7: a key already duplicated twice, duplicated once more. -/
theorem c7_witness :
    duplicateKeys ([kvProp "bar" (Expr.strLit "baz"),
        kvProp "bar" (Expr.strLit "qux")] ++ [kvProp "bar" (Expr.strLit "x")])
      = duplicateKeys [kvProp "bar" (Expr.strLit "baz"),
          kvProp "bar" (Expr.strLit "qux")]
    ∧ (duplicateKeys [kvProp "bar" (Expr.strLit "baz"),
        kvProp "bar" (Expr.strLit "qux")]).count "bar" = 1 :=
  c7_presence_only
    [kvProp "bar" (Expr.strLit "baz"), kvProp "bar" (Expr.strLit "qux")]
    (kvProp "bar" (Expr.strLit "x")) "bar" (by decide) (by decide)

/-- C8: the check is deterministic and stateless: a run appends to the sink
exactly the diagnostics of a run from an empty sink, independent of prior
state, so running `lint_module` twice appends two identical sequences. -/
theorem c8_stateless_idempotent (m : JsModule) (ctx : Context) :
    lint_module ctx m = ctx ++ lint_module [] m
    ∧ lint_module (lint_module ctx m) m
        = ctx ++ lint_module [] m ++ lint_module [] m := by
  refine ⟨lint_module_append ctx m, ?_⟩
  rw [lint_module_append (lint_module ctx m) m, lint_module_append ctx m]

/-- C9: a getter and a setter with the same key in one literal collide and
produce one diagnostic for that key (no accessor-kind distinction). -/
theorem c9_getter_setter_collision (span : Span) (k : String)
    (gb sb : Option Expr) (sparam : String) :
    objectLitDiagnostics span
        [PropOrSpread.prop (JsProp.getter (PropName.ident k) gb),
         PropOrSpread.prop (JsProp.setter (PropName.ident k) sparam sb)]
      = [mkDiagnostic span k]
    ∧ (mkDiagnostic span k).message = "Duplicate key \x27" ++ k ++ "\x27" := by
  refine ⟨?_, rfl⟩
  simp [objectLitDiagnostics, duplicateKeys, scanProps, PropOrSpread.get_key,
    JsProp.get_key, PropName.get_key, btreeInsert]

/-- C10: canonical keys carry no descriptor-type tag: a string key whose text
equals a numeric key's decimal rendering collides with it, in particular
`"1"` and `1`. -/
theorem c10_string_number_collision (span : Span) (v : Int) (a b : String) :
    objectLitDiagnostics span
        [PropOrSpread.prop (JsProp.keyValue (PropName.str (toString v))
          (Expr.strLit a)),
         PropOrSpread.prop (JsProp.keyValue (PropName.num v) (Expr.strLit b))]
      = [mkDiagnostic span (toString v)]
    ∧ objectLitDiagnostics span
        [PropOrSpread.prop (JsProp.keyValue (PropName.str "1")
          (Expr.strLit a)),
         PropOrSpread.prop (JsProp.keyValue (PropName.num 1) (Expr.strLit b))]
      = [mkDiagnostic span "1"] := by
  have h1 : toString (1 : Int) = "1" := by decide
  constructor
  · simp [objectLitDiagnostics, duplicateKeys, scanProps, PropOrSpread.get_key,
      JsProp.get_key, PropName.get_key, btreeInsert]
  · simp [objectLitDiagnostics, duplicateKeys, scanProps, PropOrSpread.get_key,
      JsProp.get_key, PropName.get_key, btreeInsert, h1]
